import Mathlib

/-!
Shallow embedding of the dbox terminal Dropbox browser (Go sources:
`commands.go`, `config.go`, `main.go` and the model/update file).

The embedding models:
  * the `Model` state struct and the Bubble Tea style `Update` /
    `handleKeyPress` functions (the controller state machine),
  * the listing pipeline of `loadFilesCmd` (raw Dropbox entries are
    converted to `FileItem`s, deleted entries are skipped, then the
    list is sorted with Go `sort.Slice`),
  * the download orchestration of `downloadFilesCmd` and the recursive
    expansion `getAllFilesInFolder`, over an explicit local-filesystem
    state and oracles for the remote store.

Conventions: Go `time.Time` values are modelled as `Nat` instants
(`Update` takes the current instant `now` as an extra argument where the
Go code calls `time.Now()`).  Go `int` cursor arithmetic is modelled on
`Nat`; the only subtractions the Go code performs are guarded
(`cursor-1` under `cursor > 0`) or clamped (`max(0, cursor-5)`), so
truncated `Nat` subtraction agrees with the Go `int` values.  Go maps
are modelled as association lists (lookup finds the most recent
binding, which matches map overwrite semantics) or as a `Finset` for the
`selected` index set (the Go code only ever stores `true` values and
deletes keys, so the key set is the semantics).
-/

namespace Dbox

/-- Mirror of the Go struct `FileItem` (the model file): display name,
case-normalized path (`PathLower` in the Dropbox metadata), folder flag,
size and modification instant. -/
structure FileItem where
  name : String
  path : String
  isFolder : Bool
  size : Int
  modified : Nat
deriving DecidableEq, Repr

/-- Mirror of the Go struct `Config` (`config.go`). -/
structure Config where
  dropboxAccessToken : String
  downloadPath : String
deriving DecidableEq, Repr

/-- The messages consumed by `Update`, a tagged union of the Go message
structs (`StatusMsg`, `ErrorMsg`, `LoadingMsg`, `FilesLoadedMsg`,
`DownloadMsg`, `DownloadCompleteMsg`) together with the Bubble Tea
runtime messages `tea.KeyMsg` (represented by its `msg.String()` value)
and `tea.WindowSizeMsg`. -/
inductive Msg where
  | status (message : String)
  | error (error : String)
  | loading (loading : Bool)
  | filesLoaded (files : List FileItem) (path : String)
  | download (files : List FileItem)
  | downloadComplete (downloaded skipped errors : List String)
  | key (k : String)
  | windowSize (width height : Int)
deriving DecidableEq, Repr

/-- The commands `Update` can return, a tagged union of the `tea.Cmd`
values produced by the Go code: no command, `tea.Quit`,
`loadFilesCmd path`, `downloadFilesCmd files`, a closure that simply
emits a message, and the browser-opening closure of the `b` key (the
URL escaping is elided; the command carries the web path). -/
inductive Cmd where
  | none
  | quit
  | loadFiles (path : String)
  | downloadFiles (files : List FileItem)
  | emit (msg : Msg)
  | openBrowser (webPath : String)
deriving DecidableEq, Repr

/-- Mirror of the Go struct `Model`: the full application state. -/
structure Model where
  currentPath : String
  files : List FileItem
  cursor : Nat
  selected : Finset Nat
  folderCache : List (String × List FileItem)
  width : Int
  height : Int
  status : String
  statusTime : Nat
  loading : Bool
  error : String
  errorTime : Nat
  downloading : Bool
  config : Config
deriving DecidableEq

/-- Mirror of Go `initialModel` (zero values for the error fields). -/
def initialModel (now : Nat) (config : Config) : Model :=
  { currentPath := ""
    files := []
    cursor := 0
    selected := ∅
    folderCache := []
    width := 80
    height := 24
    status := "welcome to dbox"
    statusTime := now
    loading := false
    error := ""
    errorTime := 0
    downloading := false
    config := config }

/-- Model of Go `filepath.Dir` on the slash-separated, already clean
paths the application manipulates: everything up to the final `/`
(without it), `"/"` when the argument is a top-level absolute name, and
`"."` when the argument contains no slash. -/
def dirname (s : String) : String :=
  let pre := (List.dropWhile (fun c => c ≠ '/') s.toList.reverse).reverse
  match pre with
  | [] => "."
  | ['/'] => "/"
  | l => String.mk l.dropLast

/-- The message the Go code formats on `DownloadCompleteMsg`. -/
def downloadCompleteMessage (downloaded skipped errors : List String) : String :=
  let base := "Download complete. Downloaded: " ++ toString downloaded.length ++
    ", Skipped: " ++ toString skipped.length ++ ", Errors: " ++ toString errors.length
  if errors.length > 0 then base ++ " - Errors: " ++ String.intercalate ", " errors
  else base

/-- The `up`/`k` case of the key switch. -/
def keyUp (m : Model) : Model :=
  if m.cursor > 0 then { m with cursor := m.cursor - 1 } else m

/-- The `down`/`j` case of the key switch. -/
def keyDown (m : Model) : Model :=
  if m.cursor < m.files.length - 1 then { m with cursor := m.cursor + 1 } else m

/-- The `g` (jump to top) case of the key switch. -/
def keyTop (m : Model) : Model := { m with cursor := 0 }

/-- The `G` (jump to bottom) case of the key switch. -/
def keyBottom (m : Model) : Model :=
  if m.files.length > 0 then { m with cursor := m.files.length - 1 } else m

/-- The `ctrl+u` (up 5) case: Go `max(0, cursor-5)` is truncated `Nat`
subtraction. -/
def keyHalfUp (m : Model) : Model := { m with cursor := m.cursor - 5 }

/-- The `ctrl+d` (down 5) case. -/
def keyHalfDown (m : Model) : Model :=
  if m.files.length > 0 then { m with cursor := min (m.files.length - 1) (m.cursor + 5) } else m

/-- The `enter` case: descend into a folder (from cache if resident,
otherwise issue a fetch) or report intent to open a file.  The Go guard
`len(m.files) > 0 && m.cursor < len(m.files)` is rendered as
`m.cursor < m.files.length` (the second conjunct implies the first). -/
def keyEnter (m : Model) : Model × Cmd :=
  if h : m.cursor < m.files.length then
    let file := m.files.get ⟨m.cursor, h⟩
    if file.isFolder then
      match m.folderCache.lookup file.path with
      | some cachedFiles =>
        ({ m with files := cachedFiles, currentPath := file.path, cursor := 0, selected := ∅ },
          Cmd.none)
      | none => ({ m with loading := true }, Cmd.loadFiles file.path)
    else (m, Cmd.emit (Msg.status ("Opening file: " ++ file.name)))
  else (m, Cmd.none)

/-- The space (toggle selection) case. -/
def keySpace (m : Model) : Model :=
  if m.cursor < m.files.length then
    (if m.cursor ∈ m.selected then { m with selected := m.selected.erase m.cursor }
     else { m with selected := insert m.cursor m.selected })
  else m

/-- The `esc` (go to parent) case. -/
def keyEsc (m : Model) : Model × Cmd :=
  if m.currentPath ≠ "" then
    let parentRaw := dirname m.currentPath
    let parent := if parentRaw = "." ∨ parentRaw = "/" then "" else parentRaw
    match m.folderCache.lookup parent with
    | some cachedFiles =>
      ({ m with files := cachedFiles, currentPath := parent, cursor := 0, selected := ∅ },
        Cmd.none)
    | none => ({ m with loading := true }, Cmd.loadFiles parent)
  else (m, Cmd.none)

/-- The `d` (download selection) case.  The iteration order of the Go
map is unspecified; it is modelled as ascending index order, which is
irrelevant to every property proved below. -/
def keyDownloadSel (m : Model) : Model × Cmd :=
  if 0 < m.selected.card then
    let selectedFiles := (m.selected.sort (· ≤ ·)).filterMap (fun i => m.files[i]?)
    if selectedFiles ≠ [] then (m, Cmd.emit (Msg.download selectedFiles)) else (m, Cmd.none)
  else (m, Cmd.emit (Msg.status "No files selected for download"))

/-- Mirror of Go `Model.handleKeyPress` (the `switch msg.String()`),
with each switch case in its named helper above. -/
def handleKeyPress (m : Model) (k : String) : Model × Cmd :=
  if m.downloading then (m, Cmd.none)
  else if k = "q" ∨ k = "ctrl+c" then (m, Cmd.quit)
  else if k = "up" ∨ k = "k" then (keyUp m, Cmd.none)
  else if k = "down" ∨ k = "j" then (keyDown m, Cmd.none)
  else if k = "g" then (keyTop m, Cmd.none)
  else if k = "G" then (keyBottom m, Cmd.none)
  else if k = "ctrl+u" then (keyHalfUp m, Cmd.none)
  else if k = "ctrl+d" then (keyHalfDown m, Cmd.none)
  else if k = "enter" then keyEnter m
  else if k = " " then (keySpace m, Cmd.none)
  else if k = "esc" then keyEsc m
  else if k = "R" then ({ m with loading := true }, Cmd.loadFiles m.currentPath)
  else if k = "C" then ({ m with folderCache := [] }, Cmd.emit (Msg.status "Cache cleared"))
  else if k = "b" then
    (m, Cmd.openBrowser (if m.currentPath = "" then "/" else m.currentPath))
  else if k = "d" then keyDownloadSel m
  else (m, Cmd.none)

/-- Mirror of Go `Model.Update`.  `now` stands for the `time.Now()`
calls in the message branches.  Note two facts read directly off the
source: the `ErrorMsg` branch clears `downloading` but leaves `loading`
untouched, and the `FilesLoadedMsg` branch installs the carried files
and path unconditionally (no comparison with the current state). -/
def update (now : Nat) (m : Model) (msg : Msg) : Model × Cmd :=
  match msg with
  | Msg.key k => if m.downloading then (m, Cmd.none) else handleKeyPress m k
  | Msg.windowSize w h => ({ m with width := w, height := h }, Cmd.none)
  | Msg.status message => ({ m with status := message, statusTime := now }, Cmd.none)
  | Msg.error e => ({ m with downloading := false, error := e, errorTime := now }, Cmd.none)
  | Msg.loading l => ({ m with loading := l }, Cmd.none)
  | Msg.filesLoaded files path =>
    ({ m with files := files, currentPath := path, cursor := 0, selected := ∅, loading := false, folderCache := (path, files) :: m.folderCache },
      Cmd.none)
  | Msg.download files => ({ m with downloading := true }, Cmd.downloadFiles files)
  | Msg.downloadComplete d s e =>
    ({ m with downloading := false, status := downloadCompleteMessage d s e, statusTime := now },
      Cmd.none)

/-! ### Listing pipeline (`loadFilesCmd` in `commands.go`) -/

/-- The Dropbox listing metadata variants the Go type switches range
over: `FileMetadata`, `FolderMetadata`, `DeletedMetadata`, and any
other metadata kind (the `default` branch of the switch in
`loadFilesCmd`).  `path` models the `PathLower` field; `serverModified`
models the file `ServerModified` instant. -/
inductive RawEntry where
  | file (name path : String) (size : Int) (serverModified : Nat)
  | folder (name path : String)
  | deleted (name path : String)
  | other
deriving DecidableEq, Repr

/-- Whether a raw entry is a `DeletedMetadata` value. -/
def RawEntry.isDeleted : RawEntry → Bool
  | RawEntry.deleted _ _ => true
  | _ => false

/-- The entry-processing loop of `loadFilesCmd`: deleted entries and
unrecognized metadata are skipped, files and folders are converted to
`FileItem`s in listing order.  `now` stands for the `time.Now()` the Go
code stores as the modification time of folders. -/
def processRawEntries (now : Nat) : List RawEntry → List FileItem
  | [] => []
  | RawEntry.file n p sz sm :: rest => FileItem.mk n p false sz sm :: processRawEntries now rest
  | RawEntry.folder n p :: rest => FileItem.mk n p true 0 now :: processRawEntries now rest
  | RawEntry.deleted _ _ :: rest => processRawEntries now rest
  | RawEntry.other :: rest => processRawEntries now rest

/-- The case-normalized name used by the sort comparator
(`strings.ToLower(fileItems[i].Name)`), as its character sequence;
lowering is per character, which agrees with the Go code on the ASCII
names at issue, and `<` below is the lexicographic string order. -/
def lowerName (f : FileItem) : List Char := f.name.data.map Char.toLower

/-- The `less` closure passed to `sort.Slice` in `loadFilesCmd`:
folders sort before non-folders, otherwise case-insensitive name
comparison. -/
def fileLess (a b : FileItem) : Bool :=
  if a.isFolder ≠ b.isFolder then a.isFolder else decide (lowerName a < lowerName b)

/-- A list is sorted with respect to the `sort.Slice` comparator: no
later element is strictly less than an earlier one. -/
def SortedByLess (l : List FileItem) : Prop :=
  List.Pairwise (fun a b => fileLess b a = false) l

/-- The contract of Go `sort.Slice` applied to the `loadFilesCmd`
comparator: the output is a permutation of the input that is sorted with
respect to the comparator.  Go documents `sort.Slice` as NOT guaranteed
to be stable, so this relation is the complete guarantee the code gets;
any tie order among entries with equal keys is permitted. -/
def SortSliceSpec (input output : List FileItem) : Prop :=
  input.Perm output ∧ SortedByLess output

/-- A possible result of `loadFilesCmd` for raw listing `raws`: some
`sort.Slice` output of the processed entries. -/
def LoadFilesResult (now : Nat) (raws : List RawEntry) (output : List FileItem) : Prop :=
  SortSliceSpec (processRawEntries now raws) output

/-- Modelled from the spec (for the refinement comparison in claim C3):
the order the spec prescribes — folders first, each partition sorted by
case-insensitive name ascending, ties kept in original fetch order.
Insertion sort with the non-strict comparison is stable, so this is the
stable folders-first order. -/
def specSortedEntries (input : List FileItem) : List FileItem :=
  List.insertionSort (fun a b => ¬ lowerName b < lowerName a) (input.filter (fun f => f.isFolder)) ++
    List.insertionSort (fun a b => ¬ lowerName b < lowerName a) (input.filter (fun f => !f.isFolder))

/-! ### Recursive folder expansion (`getAllFilesInFolder`) -/

/-- A remote listing oracle: the `dbx.ListFolder` capability, returning
the raw entries of a folder or an error. -/
def ListOracle : Type := String → Except String (List RawEntry)

/-- The entry loop of Go `getAllFilesInFolder`, parameterized by the
function `rec` used for the recursive call on subfolder paths: files
are appended, folders are appended followed by their recursively
gathered contents, deleted entries are skipped; an error from a
recursive call propagates (the Go loop returns `nil, err`
immediately). -/
def getAllFromEntries (rec : String → Except String (List FileItem)) (now : Nat) :
    List RawEntry → Except String (List FileItem)
  | [] => Except.ok []
  | RawEntry.file n p sz sm :: rest =>
    match getAllFromEntries rec now rest with
    | Except.error e => Except.error e
    | Except.ok items => Except.ok (FileItem.mk n p false sz sm :: items)
  | RawEntry.folder n p :: rest =>
    match rec p with
    | Except.error e => Except.error e
    | Except.ok subFiles =>
      match getAllFromEntries rec now rest with
      | Except.error e => Except.error e
      | Except.ok items => Except.ok (FileItem.mk n p true 0 now :: (subFiles ++ items))
  | RawEntry.deleted _ _ :: rest => getAllFromEntries rec now rest
  | RawEntry.other :: rest => getAllFromEntries rec now rest

/-- Mirror of Go `getAllFilesInFolder`: list the folder, then process
its entries in order, recursing into subfolders; the first listing
failure anywhere in the subtree aborts the whole call and is returned
to the caller.  The Go recursion is bounded only by the store depth;
the model adds explicit `fuel`, whose exhaustion is modelled as an
error. -/
def getAllFilesInFolder (ls : ListOracle) (now : Nat) :
    Nat → String → Except String (List FileItem)
  | 0, _ => Except.error "recursion fuel exhausted"
  | fuel + 1, folderPath =>
    match ls folderPath with
    | Except.error e => Except.error e
    | Except.ok entries => getAllFromEntries (getAllFilesInFolder ls now fuel) now entries

/-- The folder-expansion loop at the start of `downloadFilesCmd`: each
selected folder is expanded to itself followed by its recursively
gathered contents; if `getAllFilesInFolder` fails for a selected folder
an error is recorded and that selected item is skipped entirely;
non-folders pass through.  Returns the expanded batch and the errors
recorded during expansion, in processing order. -/
def expandItems (ls : ListOracle) (now fuel : Nat) : List FileItem → List FileItem × List String
  | [] => ([], [])
  | it :: rest =>
    if it.isFolder then
      match getAllFilesInFolder ls now fuel it.path with
      | Except.error e =>
        let r := expandItems ls now fuel rest
        (r.1, ("Failed to list folder " ++ it.name ++ ": " ++ e) :: r.2)
      | Except.ok folderFiles =>
        let r := expandItems ls now fuel rest
        (it :: (folderFiles ++ r.1), r.2)
    else
      let r := expandItems ls now fuel rest
      (it :: r.1, r.2)

/-! ### Local filesystem model and download materialization -/

/-- The local filesystem state touched by `downloadFilesCmd`: regular
files (path to content, most recent binding wins) and the set of
directories created.  `os.MkdirAll` is modelled as creating the named
directory (intermediate ancestors are elided; only exact-path existence
is ever consulted by the code under scrutiny). -/
structure FS where
  files : List (String × String)
  dirs : List String
deriving DecidableEq, Repr

/-- The content of the regular file at `p`, if any. -/
def fileAt (fs : FS) (p : String) : Option String := fs.files.lookup p

/-- Model of `os.Stat(p); err == nil`: some filesystem object exists at
`p` (regular file or directory). -/
def pathExists (fs : FS) (p : String) : Bool :=
  (fileAt fs p).isSome || fs.dirs.contains p

/-- Model of `os.MkdirAll`: succeeds (idempotently) unless a regular
file occupies the path. -/
def mkdirAll (fs : FS) (p : String) : Except String FS :=
  if (fileAt fs p).isSome then Except.error ("mkdir " ++ p ++ ": not a directory")
  else Except.ok { fs with dirs := p :: fs.dirs }

/-- Model of `os.WriteFile`. -/
def writeFile (fs : FS) (p content : String) : FS :=
  { fs with files := (p, content) :: fs.files }

/-- Model of Go `filepath.Join(downloadDir, item.Path)`: Dropbox paths
begin with `/`, so the join is concatenation. -/
def localPath (downloadDir : String) (it : FileItem) : String := downloadDir ++ it.path

/-- A remote download oracle: the `dbx.Download` capability followed by
`io.ReadAll`, returning the content of a remote file or an error. -/
def FetchOracle : Type := String → Except String String

/-- The accumulator threaded through the materialization loop of
`downloadFilesCmd`: the filesystem plus the `downloaded`, `skipped` and
`errors` lists.  `fetched` is instrumentation recording every remote
path passed to the download capability, used only to state that no
fetch is attempted for skipped files. -/
structure BatchAcc where
  fs : FS
  downloaded : List String
  skipped : List String
  errors : List String
  fetched : List String
deriving DecidableEq, Repr

/-- One iteration of the materialization loop of `downloadFilesCmd`:
folders are created locally (errors recorded, never counted as
downloads); files are skipped when the local path already exists
(existence alone, no content comparison), otherwise the parent
directory is created, the content fetched and written, with any
per-item failure recorded under `errors` and the loop continuing. -/
def materializeStep (r : FetchOracle) (downloadDir : String) (acc : BatchAcc) (it : FileItem) :
    BatchAcc :=
  let lp := localPath downloadDir it
  if it.isFolder then
    match mkdirAll acc.fs lp with
    | Except.error e =>
      { acc with errors := acc.errors ++ ["Failed to create folder " ++ it.name ++ ": " ++ e] }
    | Except.ok fs1 => { acc with fs := fs1 }
  else if pathExists acc.fs lp then { acc with skipped := acc.skipped ++ [it.name] }
  else
    match mkdirAll acc.fs (dirname lp) with
    | Except.error e =>
      { acc with errors := acc.errors ++ ["Failed to create directory for " ++ it.name ++ ": " ++ e] }
    | Except.ok fs1 =>
      match r it.path with
      | Except.error e =>
        { acc with fs := fs1, fetched := acc.fetched ++ [it.path], errors := acc.errors ++ ["Failed to download " ++ it.name ++ ": " ++ e] }
      | Except.ok content =>
        { acc with fs := writeFile fs1 lp content, fetched := acc.fetched ++ [it.path], downloaded := acc.downloaded ++ [it.name] }

/-- The materialization loop of `downloadFilesCmd` over the expanded
batch. -/
def materialize (r : FetchOracle) (downloadDir : String) :
    List FileItem → BatchAcc → BatchAcc
  | [], acc => acc
  | it :: rest, acc => materialize r downloadDir rest (materializeStep r downloadDir acc it)

/-- The whole of `downloadFilesCmd`: expansion followed by
materialization, starting from the given local filesystem; the errors
recorded during expansion head the error list, as in the Go code. -/
def downloadFilesModel (ls : ListOracle) (r : FetchOracle) (now fuel : Nat)
    (downloadDir : String) (items : List FileItem) (fs0 : FS) : BatchAcc :=
  let ex := expandItems ls now fuel items
  materialize r downloadDir ex.1 (BatchAcc.mk fs0 [] [] ex.2 [])

/-! ### Concrete fixtures used by counterexamples and witnesses -/

/-- A concrete configuration. -/
def cfg0 : Config := Config.mk "token" "/dl"

/-- A concrete folder entry named `a`. -/
def itemA : FileItem := FileItem.mk "a" "/a" true 0 0

/-- A concrete folder entry named `b`. -/
def itemB : FileItem := FileItem.mk "b" "/b" true 0 0

/-- A concrete file inside folder `/a`. -/
def aFile : FileItem := FileItem.mk "x" "/a/x" false 1 0

/-- A concrete file inside folder `/b`. -/
def bFile : FileItem := FileItem.mk "y" "/b/y" false 1 0

/-- Root listing loaded: the state after the initial fetch resolves. -/
def c1m1 : Model := (update 0 (initialModel 0 cfg0) (Msg.filesLoaded [itemA, itemB] "")).1

/-- `enter` on folder `a` (not cached): a fetch for `/a` goes out. -/
def c1m2 : Model := (update 0 c1m1 (Msg.key "enter")).1

/-- The `/a` listing arrives. -/
def c1m3 : Model := (update 0 c1m2 (Msg.filesLoaded [aFile] "/a")).1

/-- `esc` back to the (cached) root. -/
def c1m4 : Model := (update 0 c1m3 (Msg.key "esc")).1

/-- Cursor down to folder `b`. -/
def c1m5 : Model := (update 0 c1m4 (Msg.key "j")).1

/-- `enter` on folder `b` (not cached): a fetch for `/b` goes out and
stays in flight. -/
def c1m6 : Model := (update 0 c1m5 (Msg.key "enter")).1

/-- Cursor back up to folder `a`. -/
def c1m7 : Model := (update 0 c1m6 (Msg.key "k")).1

/-- `enter` on folder `a`, which is cache-resident: the user is now
viewing `/a` while the fetch for `/b` is still in flight. -/
def c1m8 : Model := (update 0 c1m7 (Msg.key "enter")).1

/-- The late `/b` listing result arrives while the user views `/a`. -/
def c1m9 : Model := (update 0 c1m8 (Msg.filesLoaded [bFile] "/b")).1

/-- A state with a listing fetch in flight (`R` pressed at the root). -/
def c2m : Model := (update 0 c1m1 (Msg.key "R")).1

/-- A state with a download batch in flight. -/
def c5m : Model := (update 0 c1m1 (Msg.download [itemA])).1

/-- First raw entry of the C3 listing: file `a`. -/
def c3RawA : RawEntry := RawEntry.file "a" "/p1" 0 0

/-- Second raw entry of the C3 listing: file `A`, whose case-normalized
name ties with `a`. -/
def c3RawB : RawEntry := RawEntry.file "A" "/p2" 0 0

/-- The raw listing with a case-insensitive duplicate pair. -/
def c3Raws : List RawEntry := [c3RawA, c3RawB]

/-- A `sort.Slice` output for the C3 listing that swaps the tied pair:
permitted by the comparator (neither element is less than the other)
but different from the stable fetch order. -/
def c3Output : List FileItem :=
  [FileItem.mk "A" "/p2" false 0 0, FileItem.mk "a" "/p1" false 0 0]

/-- A selected folder whose subtree contains a failing subfolder. -/
def c4F : FileItem := FileItem.mk "f" "/f" true 0 0

/-- The file in the sibling branch `/f/s2`, which the Go code fails to
expand once `/f/s1` errors. -/
def c4g : FileItem := FileItem.mk "g" "/f/s2/g" false 1 0

/-- The remote listing oracle for C4: `/f` contains subfolders `s1` and
`s2`; listing `/f/s1` fails; `/f/s2` contains the file `g`. -/
def c4ls : ListOracle := fun p =>
  if p = "/f" then Except.ok [RawEntry.folder "s1" "/f/s1", RawEntry.folder "s2" "/f/s2"]
  else if p = "/f/s1" then Except.error "boom"
  else if p = "/f/s2" then Except.ok [RawEntry.file "g" "/f/s2/g" 1 0]
  else Except.ok []

instance {α β : Type} [DecidableEq α] [DecidableEq β] : DecidableEq (Except α β) := fun x y =>
  match x, y with
  | Except.ok a, Except.ok b =>
    if h : a = b then isTrue (by rw [h]) else isFalse (fun hh => h (Except.ok.inj hh))
  | Except.error a, Except.error b =>
    if h : a = b then isTrue (by rw [h]) else isFalse (fun hh => h (Except.error.inj hh))
  | Except.ok _, Except.error _ => isFalse (fun hh => Except.noConfusion hh)
  | Except.error _, Except.ok _ => isFalse (fun hh => Except.noConfusion hh)

/-- The listing oracle with every deleted entry removed from every
listing it returns. -/
def filteredOracle (ls : ListOracle) : ListOracle := fun q =>
  Except.map (fun l => l.filter (fun e => !e.isDeleted)) (ls q)

/-- Whether an `Except` value is a success. -/
def isOkE {α β : Type} : Except α β → Bool
  | Except.ok _ => true
  | Except.error _ => false

/-- A batch item is fresh for the local filesystem: nothing exists at
its target local path and no regular file occupies its parent
directory path. -/
def FreshFor (dir : String) (fs : FS) (b : FileItem) : Prop :=
  pathExists fs (localPath dir b) = false ∧ fileAt fs (dirname (localPath dir b)) = none

/-- Cursor invariant of the spec: `cursor` is `0` on an empty entry
list and a valid index otherwise (stated arithmetically on `Nat`). -/
def cursorInv (m : Model) : Prop :=
  (m.files.length = 0 → m.cursor = 0) ∧ (0 < m.files.length → m.cursor < m.files.length)

/-- Selection invariant of the spec: every selected index is a valid
index into the current entry list. -/
def selectedInv (m : Model) : Prop := ∀ i ∈ m.selected, i < m.files.length

/-- A local filesystem that already contains the target path of
`aFile` under download root `/dl`. -/
def c8fs : FS := FS.mk [("/dl/a/x", "old")] []

/-- A fetch oracle that would deliver fresh content for any path. -/
def c8r : FetchOracle := fun _ => Except.ok "new"

/-- C9 batch: first file, fetch succeeds. -/
def c9f1 : FileItem := FileItem.mk "f1" "/d/f1" false 1 0

/-- C9 batch: second file, fetch fails. -/
def c9bad : FileItem := FileItem.mk "f2" "/d/f2" false 1 0

/-- C9 batch: third file, fetch succeeds. -/
def c9f3 : FileItem := FileItem.mk "f3" "/d/f3" false 1 0

/-- The C9 fetch oracle: only `/d/f2` fails. -/
def c9r : FetchOracle := fun p =>
  if p = "/d/f2" then Except.error "net" else Except.ok "data"

/-- The empty local filesystem. -/
def emptyFS : FS := FS.mk [] []

/-- A state with a non-empty selection: space pressed on the root
listing. -/
def c7m : Model := (update 0 c1m1 (Msg.key " ")).1

instance (l : List FileItem) : Decidable (SortedByLess l) :=
  inferInstanceAs (Decidable (List.Pairwise (fun a b => fileLess b a = false) l))

instance (input output : List FileItem) : Decidable (SortSliceSpec input output) :=
  inferInstanceAs (Decidable (input.Perm output ∧ SortedByLess output))

instance (now : Nat) (raws : List RawEntry) (output : List FileItem) :
    Decidable (LoadFilesResult now raws output) :=
  inferInstanceAs (Decidable (SortSliceSpec (processRawEntries now raws) output))

instance (dir : String) (fs : FS) (b : FileItem) : Decidable (FreshFor dir fs b) :=
  inferInstanceAs (Decidable (pathExists fs (localPath dir b) = false ∧
    fileAt fs (dirname (localPath dir b)) = none))

instance (m : Model) : Decidable (cursorInv m) :=
  inferInstanceAs (Decidable ((m.files.length = 0 → m.cursor = 0) ∧
    (0 < m.files.length → m.cursor < m.files.length)))

instance (m : Model) : Decidable (selectedInv m) :=
  inferInstanceAs (Decidable (∀ i ∈ m.selected, i < m.files.length))

/-! ### Theorems -/

/-- Claim C1 counterexample: from the initial state, load the root,
visit `/a` (caching it), start a fetch for `/b`, navigate back to the
cache-resident `/a`; when the late result for `/b` arrives, `Update`
overwrites the current state: `currentPath` and `files` reflect `/b`,
not the cache-resident `/a` the user was viewing, so the controller
does not compare the carried path against current expectations. -/
theorem C1_counterexample :
    (update 0 c1m5 (Msg.key "enter")).2 = Cmd.loadFiles "/b" ∧
    c1m8.currentPath = "/a" ∧ c1m8.files = [aFile] ∧ c1m8.loading = true ∧
    c1m9.currentPath = "/b" ∧ c1m9.files = [bFile] := by
  decide

/-- Claim C1 (amended): processing a `FilesLoadedMsg` installs the
carried listing unconditionally — for every state, after the result
event `files` and `currentPath` are the ones carried by the message
(the stale result for a previously requested path overwrites the
current state; no comparison with current expectations is made). -/
theorem C1_amended (now : Nat) (m : Model) (files : List FileItem) (path : String) :
    (update now m (Msg.filesLoaded files path)).1.currentPath = path ∧
    (update now m (Msg.filesLoaded files path)).1.files = files ∧
    (update now m (Msg.filesLoaded files path)).1.cursor = 0 ∧
    (update now m (Msg.filesLoaded files path)).1.selected = ∅ ∧
    (update now m (Msg.filesLoaded files path)).1.loading = false :=
  ⟨rfl, rfl, rfl, rfl, rfl⟩

/-- Claim C2: at the failing input — a state with a listing fetch in
flight (`loading = true`) receiving an `ErrorMsg` — the `Update` code
leaves `NavigationState` untouched and surfaces the error, but does NOT
clear the loading flag: `loading` is still `true` after the event
(the handler clears `downloading` instead), contradicting the claimed
"after any fetch failure the loading flag is false". -/
theorem C2_error_leaves_loading_set :
    c2m.loading = true ∧
    (update 5 c2m (Msg.error "boom")).1.currentPath = c2m.currentPath ∧
    (update 5 c2m (Msg.error "boom")).1.files = c2m.files ∧
    (update 5 c2m (Msg.error "boom")).1.cursor = c2m.cursor ∧
    (update 5 c2m (Msg.error "boom")).1.selected = c2m.selected ∧
    (update 5 c2m (Msg.error "boom")).1.error = "boom" ∧
    (update 5 c2m (Msg.error "boom")).1.errorTime = 5 ∧
    (update 5 c2m (Msg.error "boom")).1.downloading = false ∧
    (update 5 c2m (Msg.error "boom")).1.loading = true := by
  decide

/-- Claim C3 counterexample: for the fetched listing containing the
files `a` and `A` (equal case-insensitive names), the output that swaps
the pair satisfies the full `sort.Slice` contract of `loadFilesCmd`
(permutation, sorted by the comparator) yet differs from the
spec-prescribed stable order, so the produced order is not "exactly"
the stable folders-first order with fetch-order ties: `sort.Slice` is
not a stable sort and the tie-break is not guaranteed. -/
theorem C3_counterexample :
    LoadFilesResult 0 c3Raws c3Output ∧
    c3Output ≠ specSortedEntries (processRawEntries 0 c3Raws) := by
  decide

/-- Claim C3 (amended): every `sort.Slice` output of a fetched listing
is a permutation of the processed entries in which folders precede
non-folders and each partition is ordered by case-insensitive name
ascending; the relative order of entries with equal case-insensitive
names within a partition is unspecified. -/
theorem C3_amended (now : Nat) (raws : List RawEntry) (out : List FileItem)
    (h : LoadFilesResult now raws out) :
    (processRawEntries now raws).Perm out ∧
    List.Pairwise (fun a b => (b.isFolder = true → a.isFolder = true) ∧
      (a.isFolder = b.isFolder → ¬ lowerName b < lowerName a)) out := by
  obtain ⟨hperm, hsorted⟩ := h
  refine ⟨hperm, List.Pairwise.imp (fun {a b} hab => ?_) hsorted⟩
  cases ha : a.isFolder <;> cases hb : b.isFolder <;>
    simp [fileLess, ha, hb] at hab ⊢ <;>
    exact hab

/-- Witness for C3_amended at the concrete duplicate-name listing. -/
theorem C3_amended_witness :
    LoadFilesResult 0 c3Raws c3Output ∧
    ((processRawEntries 0 c3Raws).Perm c3Output ∧
      List.Pairwise (fun a b => (b.isFolder = true → a.isFolder = true) ∧
        (a.isFolder = b.isFolder → ¬ lowerName b < lowerName a)) c3Output) :=
  ⟨by decide, C3_amended 0 c3Raws c3Output (by decide)⟩

/-- Claim C4 counterexample: selected folder `/f` has subfolders
`/f/s1` (whose listing fails) and `/f/s2` (whose listing succeeds and
contains file `g`).  `getAllFilesInFolder` propagates the `/f/s1`
failure to the whole call, so `downloadFilesCmd` records one error for
the entire selected folder and excludes everything — the sibling branch
`/f/s2` is NOT expanded: `g` is absent from the batch, refuting "only
the failing subtree is excluded while sibling branches of the same
selected folder are still expanded". -/
theorem C4_counterexample :
    getAllFilesInFolder c4ls 0 10 "/f" = Except.error "boom" ∧
    expandItems c4ls 0 10 [c4F] = ([], ["Failed to list folder f: boom"]) ∧
    c4g ∉ (expandItems c4ls 0 10 [c4F]).1 := by
  decide

/-- Claim C4 (amended): a recursive listing failure anywhere inside a
selected folder's subtree aborts the expansion of that entire selected
folder: exactly one error is recorded for the selected folder and the
whole folder (all of its branches) is excluded from the batch, while
the other selected top-level items are processed unaffected. -/
theorem C4_amended (ls : ListOracle) (now fuel : Nat) (it : FileItem)
    (rest : List FileItem) (e : String) (hf : it.isFolder = true)
    (he : getAllFilesInFolder ls now fuel it.path = Except.error e) :
    expandItems ls now fuel (it :: rest) =
      ((expandItems ls now fuel rest).1,
        ("Failed to list folder " ++ it.name ++ ": " ++ e) :: (expandItems ls now fuel rest).2) := by
  simp [expandItems, hf, he]

/-- Witness for C4_amended at the concrete failing folder. -/
theorem C4_amended_witness :
    c4F.isFolder = true ∧
    getAllFilesInFolder c4ls 0 10 c4F.path = Except.error "boom" ∧
    expandItems c4ls 0 10 [c4F] =
      ((expandItems c4ls 0 10 []).1,
        ("Failed to list folder " ++ c4F.name ++ ": " ++ "boom") :: (expandItems c4ls 0 10 []).2) :=
  ⟨by decide, by decide, C4_amended c4ls 0 10 c4F [] "boom" (by decide) (by decide)⟩

/-- Claim C5 counterexample: in a reachable state with a download batch
in flight, the key events `q` and `ctrl+c` are ignored exactly like
every other key — the model is unchanged and no `tea.Quit` command is
produced, refuting "a hard-quit signal is still honored and quits"
(the `Update` and `handleKeyPress` guards return before the quit
branch is reached). -/
theorem C5_counterexample :
    c5m.downloading = true ∧
    update 0 c5m (Msg.key "q") = (c5m, Cmd.none) ∧
    update 0 c5m (Msg.key "ctrl+c") = (c5m, Cmd.none) ∧
    Cmd.none ≠ Cmd.quit := by
  decide

/-- Claim C5 (amended): while a download batch is in flight, EVERY
keyboard input event — including `q` and `ctrl+c` — is ignored without
queuing: the state is unchanged and no command is issued. -/
theorem C5_amended (now : Nat) (m : Model) (k : String) (h : m.downloading = true) :
    update now m (Msg.key k) = (m, Cmd.none) := by
  simp [update, h]

/-- Witness for C5_amended at a concrete downloading state. -/
theorem C5_amended_witness :
    c5m.downloading = true ∧ update 0 c5m (Msg.key "q") = (c5m, Cmd.none) :=
  ⟨by decide, C5_amended 0 c5m "q" (by decide)⟩

/-- Helper: a state with the same entries and cursor as one satisfying
the cursor invariant satisfies it too, and vacuously satisfies the
reset-on-replacement condition. -/
theorem cursorInv_congr {m X : Model} (hf : X.files = m.files) (hc : X.cursor = m.cursor)
    (hinv : cursorInv m) : cursorInv X ∧ (X.files ≠ m.files → X.cursor = 0) := by
  obtain ⟨h0, h1⟩ := hinv
  refine ⟨⟨fun he => ?_, fun hne => ?_⟩, fun hch => absurd hf hch⟩
  · rw [hc]
    apply h0
    rwa [hf] at he
  · rw [hc, hf]
    apply h1
    rwa [hf] at hne

/-- Helper: the two arithmetic shapes a state satisfying the cursor
invariant can have. -/
theorem cursorInv_cases {m : Model} (h : cursorInv m) :
    (m.files.length = 0 ∧ m.cursor = 0) ∨
      (0 < m.files.length ∧ m.cursor < m.files.length) := by
  rcases Nat.eq_zero_or_pos m.files.length with hz | hp
  · exact Or.inl ⟨hz, h.1 hz⟩
  · exact Or.inr ⟨hp, h.2 hp⟩

/-- The pure cursor movers leave the entry list unchanged. -/
theorem movers_files (m : Model) :
    (keyUp m).files = m.files ∧ (keyDown m).files = m.files ∧ (keyTop m).files = m.files ∧
      (keyBottom m).files = m.files ∧ (keyHalfUp m).files = m.files ∧
      (keyHalfDown m).files = m.files := by
  refine ⟨?_, ?_, rfl, ?_, rfl, ?_⟩ <;>
    (simp only [keyUp, keyDown, keyBottom, keyHalfDown]; split <;> rfl)

/-- Each pure cursor mover preserves the cursor invariant. -/
theorem movers_cursorInv (m : Model) (h : cursorInv m) :
    cursorInv (keyUp m) ∧ cursorInv (keyDown m) ∧ cursorInv (keyTop m) ∧
      cursorInv (keyBottom m) ∧ cursorInv (keyHalfUp m) ∧ cursorInv (keyHalfDown m) := by
  rcases cursorInv_cases h with ⟨hz, hc⟩ | ⟨hp, hlt⟩ <;>
    (refine ⟨?_, ?_, ?_, ?_, ?_, ?_⟩ <;>
      (simp only [keyUp, keyDown, keyTop, keyBottom, keyHalfUp, keyHalfDown, cursorInv]
       repeat' split
       all_goals try dsimp only
       all_goals constructor <;> intro <;> first | omega | trivial))

/-- The `enter` case preserves the cursor invariant and resets the
cursor whenever it replaces the entry list. -/
theorem keyEnter_cursor (m : Model) (h : cursorInv m) :
    cursorInv (keyEnter m).1 ∧ ((keyEnter m).1.files ≠ m.files → (keyEnter m).1.cursor = 0) := by
  unfold keyEnter
  dsimp only
  repeat' split
  all_goals first
    | exact cursorInv_congr rfl rfl h
    | exact ⟨⟨fun _ => rfl, fun hne => hne⟩, fun _ => rfl⟩

/-- The `esc` case preserves the cursor invariant and resets the cursor
whenever it replaces the entry list. -/
theorem keyEsc_cursor (m : Model) (h : cursorInv m) :
    cursorInv (keyEsc m).1 ∧ ((keyEsc m).1.files ≠ m.files → (keyEsc m).1.cursor = 0) := by
  unfold keyEsc
  dsimp only
  repeat' split
  all_goals first
    | exact cursorInv_congr rfl rfl h
    | exact ⟨⟨fun _ => rfl, fun hne => hne⟩, fun _ => rfl⟩

/-- The `d` case leaves the model unchanged. -/
theorem keyDownloadSel_model (m : Model) : (keyDownloadSel m).1 = m := by
  unfold keyDownloadSel
  dsimp only
  repeat' split
  all_goals rfl

/-- The space case leaves entries and cursor unchanged. -/
theorem keySpace_files_cursor (m : Model) :
    (keySpace m).files = m.files ∧ (keySpace m).cursor = m.cursor := by
  unfold keySpace
  repeat' split
  all_goals exact ⟨rfl, rfl⟩

/-- Helper: one key press preserves the cursor invariant, and if it
replaces the entry list the cursor is reset to `0`. -/
theorem handleKeyPress_cursor (m : Model) (k : String) (hinv : cursorInv m) :
    cursorInv (handleKeyPress m k).1 ∧
      ((handleKeyPress m k).1.files ≠ m.files → (handleKeyPress m k).1.cursor = 0) := by
  obtain ⟨fu, fd, ft, fb, fhu, fhd⟩ := movers_files m
  obtain ⟨iu, id_, it, ib, ihu, ihd⟩ := movers_cursorInv m hinv
  unfold handleKeyPress
  by_cases h1 : m.downloading = true
  case pos => rw [if_pos h1]; exact cursorInv_congr rfl rfl hinv
  rw [if_neg h1]
  by_cases h2 : k = "q" ∨ k = "ctrl+c"
  case pos => rw [if_pos h2]; exact cursorInv_congr rfl rfl hinv
  rw [if_neg h2]
  by_cases h3 : k = "up" ∨ k = "k"
  case pos => rw [if_pos h3]; exact ⟨iu, fun hch => absurd fu hch⟩
  rw [if_neg h3]
  by_cases h4 : k = "down" ∨ k = "j"
  case pos => rw [if_pos h4]; exact ⟨id_, fun hch => absurd fd hch⟩
  rw [if_neg h4]
  by_cases h5 : k = "g"
  case pos => rw [if_pos h5]; exact ⟨it, fun hch => absurd ft hch⟩
  rw [if_neg h5]
  by_cases h6 : k = "G"
  case pos => rw [if_pos h6]; exact ⟨ib, fun hch => absurd fb hch⟩
  rw [if_neg h6]
  by_cases h7 : k = "ctrl+u"
  case pos => rw [if_pos h7]; exact ⟨ihu, fun hch => absurd fhu hch⟩
  rw [if_neg h7]
  by_cases h8 : k = "ctrl+d"
  case pos => rw [if_pos h8]; exact ⟨ihd, fun hch => absurd fhd hch⟩
  rw [if_neg h8]
  by_cases h9 : k = "enter"
  case pos => rw [if_pos h9]; exact keyEnter_cursor m hinv
  rw [if_neg h9]
  by_cases h10 : k = " "
  case pos =>
    rw [if_pos h10]
    exact cursorInv_congr (keySpace_files_cursor m).1 (keySpace_files_cursor m).2 hinv
  rw [if_neg h10]
  by_cases h11 : k = "esc"
  case pos => rw [if_pos h11]; exact keyEsc_cursor m hinv
  rw [if_neg h11]
  by_cases h12 : k = "R"
  case pos => rw [if_pos h12]; exact cursorInv_congr rfl rfl hinv
  rw [if_neg h12]
  by_cases h13 : k = "C"
  case pos => rw [if_pos h13]; exact cursorInv_congr rfl rfl hinv
  rw [if_neg h13]
  by_cases h14 : k = "b"
  case pos => rw [if_pos h14]; exact cursorInv_congr rfl rfl hinv
  rw [if_neg h14]
  by_cases h15 : k = "d"
  case pos =>
    rw [if_pos h15]
    exact cursorInv_congr (congrArg Model.files (keyDownloadSel_model m))
      (congrArg Model.cursor (keyDownloadSel_model m)) hinv
  rw [if_neg h15]
  exact cursorInv_congr rfl rfl hinv

/-- Helper: one `Update` step preserves the cursor invariant, and any
entry-list replacement resets the cursor to `0`. -/
theorem update_cursor (now : Nat) (m : Model) (msg : Msg) (hinv : cursorInv m) :
    cursorInv (update now m msg).1 ∧
      ((update now m msg).1.files ≠ m.files → (update now m msg).1.cursor = 0) := by
  cases msg with
  | key k =>
    cases hd : m.downloading with
    | true =>
      have hu : update now m (Msg.key k) = (m, Cmd.none) := by simp [update, hd]
      rw [hu]
      exact cursorInv_congr rfl rfl hinv
    | false =>
      have hu : update now m (Msg.key k) = handleKeyPress m k := by simp [update, hd]
      rw [hu]
      exact handleKeyPress_cursor m k hinv
  | filesLoaded files path => exact ⟨⟨fun _ => rfl, fun h => h⟩, fun _ => rfl⟩
  | windowSize w h => exact cursorInv_congr rfl rfl hinv
  | status s => exact cursorInv_congr rfl rfl hinv
  | error e => exact cursorInv_congr rfl rfl hinv
  | loading l => exact cursorInv_congr rfl rfl hinv
  | download fs => exact cursorInv_congr rfl rfl hinv
  | downloadComplete d s e => exact cursorInv_congr rfl rfl hinv

/-- Helper: a state with the same entries and selection as one
satisfying the selection invariant satisfies it too. -/
theorem selectedInv_congr {m X : Model} (hf : X.files = m.files) (hs : X.selected = m.selected)
    (hinv : selectedInv m) : selectedInv X ∧ (X.files ≠ m.files → X.selected = ∅) := by
  refine ⟨fun i hi => ?_, fun hch => absurd hf hch⟩
  rw [hf]
  exact hinv i (hs ▸ hi)

/-- The pure cursor movers leave the selection unchanged. -/
theorem movers_selected (m : Model) :
    (keyUp m).selected = m.selected ∧ (keyDown m).selected = m.selected ∧
      (keyTop m).selected = m.selected ∧ (keyBottom m).selected = m.selected ∧
      (keyHalfUp m).selected = m.selected ∧ (keyHalfDown m).selected = m.selected := by
  refine ⟨?_, ?_, rfl, ?_, rfl, ?_⟩ <;>
    (simp only [keyUp, keyDown, keyBottom, keyHalfDown]; split <;> rfl)

/-- The space case preserves the selection invariant: the toggled
index is guarded by the bounds check. -/
theorem keySpace_selectedInv (m : Model) (h : selectedInv m) : selectedInv (keySpace m) := by
  unfold keySpace
  split
  case isTrue hcur =>
    split
    case isTrue hmem => exact fun i hi => h i (Finset.mem_of_mem_erase hi)
    case isFalse hmem =>
      intro i hi
      rcases Finset.mem_insert.mp hi with h' | h'
      · rw [h']
        exact hcur
      · exact h i h'
  case isFalse hcur => exact h

/-- The `enter` case preserves the selection invariant and clears the
selection whenever it replaces the entry list. -/
theorem keyEnter_selected (m : Model) (h : selectedInv m) :
    selectedInv (keyEnter m).1 ∧
      ((keyEnter m).1.files ≠ m.files → (keyEnter m).1.selected = ∅) := by
  unfold keyEnter
  dsimp only
  repeat' split
  all_goals first
    | exact selectedInv_congr rfl rfl h
    | exact ⟨fun i hi => absurd hi (Finset.not_mem_empty i), fun _ => rfl⟩

/-- The `esc` case preserves the selection invariant and clears the
selection whenever it replaces the entry list. -/
theorem keyEsc_selected (m : Model) (h : selectedInv m) :
    selectedInv (keyEsc m).1 ∧
      ((keyEsc m).1.files ≠ m.files → (keyEsc m).1.selected = ∅) := by
  unfold keyEsc
  dsimp only
  repeat' split
  all_goals first
    | exact selectedInv_congr rfl rfl h
    | exact ⟨fun i hi => absurd hi (Finset.not_mem_empty i), fun _ => rfl⟩

/-- Helper: one key press preserves the selection invariant, and if it
replaces the entry list the selection is cleared. -/
theorem handleKeyPress_selected (m : Model) (k : String) (hinv : selectedInv m) :
    selectedInv (handleKeyPress m k).1 ∧
      ((handleKeyPress m k).1.files ≠ m.files → (handleKeyPress m k).1.selected = ∅) := by
  obtain ⟨fu, fd, ft, fb, fhu, fhd⟩ := movers_files m
  obtain ⟨su, sd, st, sb, shu, shd⟩ := movers_selected m
  unfold handleKeyPress
  by_cases h1 : m.downloading = true
  case pos => rw [if_pos h1]; exact selectedInv_congr rfl rfl hinv
  rw [if_neg h1]
  by_cases h2 : k = "q" ∨ k = "ctrl+c"
  case pos => rw [if_pos h2]; exact selectedInv_congr rfl rfl hinv
  rw [if_neg h2]
  by_cases h3 : k = "up" ∨ k = "k"
  case pos => rw [if_pos h3]; exact selectedInv_congr fu su hinv
  rw [if_neg h3]
  by_cases h4 : k = "down" ∨ k = "j"
  case pos => rw [if_pos h4]; exact selectedInv_congr fd sd hinv
  rw [if_neg h4]
  by_cases h5 : k = "g"
  case pos => rw [if_pos h5]; exact selectedInv_congr ft st hinv
  rw [if_neg h5]
  by_cases h6 : k = "G"
  case pos => rw [if_pos h6]; exact selectedInv_congr fb sb hinv
  rw [if_neg h6]
  by_cases h7 : k = "ctrl+u"
  case pos => rw [if_pos h7]; exact selectedInv_congr fhu shu hinv
  rw [if_neg h7]
  by_cases h8 : k = "ctrl+d"
  case pos => rw [if_pos h8]; exact selectedInv_congr fhd shd hinv
  rw [if_neg h8]
  by_cases h9 : k = "enter"
  case pos => rw [if_pos h9]; exact keyEnter_selected m hinv
  rw [if_neg h9]
  by_cases h10 : k = " "
  case pos =>
    rw [if_pos h10]
    exact ⟨keySpace_selectedInv m hinv, fun hch => absurd (keySpace_files_cursor m).1 hch⟩
  rw [if_neg h10]
  by_cases h11 : k = "esc"
  case pos => rw [if_pos h11]; exact keyEsc_selected m hinv
  rw [if_neg h11]
  by_cases h12 : k = "R"
  case pos => rw [if_pos h12]; exact selectedInv_congr rfl rfl hinv
  rw [if_neg h12]
  by_cases h13 : k = "C"
  case pos => rw [if_pos h13]; exact selectedInv_congr rfl rfl hinv
  rw [if_neg h13]
  by_cases h14 : k = "b"
  case pos => rw [if_pos h14]; exact selectedInv_congr rfl rfl hinv
  rw [if_neg h14]
  by_cases h15 : k = "d"
  case pos =>
    rw [if_pos h15]
    exact selectedInv_congr (congrArg Model.files (keyDownloadSel_model m))
      (congrArg Model.selected (keyDownloadSel_model m)) hinv
  rw [if_neg h15]
  exact selectedInv_congr rfl rfl hinv

/-- Helper: one `Update` step preserves the selection invariant, and
any entry-list replacement clears the selection. -/
theorem update_selected (now : Nat) (m : Model) (msg : Msg) (hinv : selectedInv m) :
    selectedInv (update now m msg).1 ∧
      ((update now m msg).1.files ≠ m.files → (update now m msg).1.selected = ∅) := by
  cases msg with
  | key k =>
    cases hd : m.downloading with
    | true =>
      have hu : update now m (Msg.key k) = (m, Cmd.none) := by simp [update, hd]
      rw [hu]
      exact selectedInv_congr rfl rfl hinv
    | false =>
      have hu : update now m (Msg.key k) = handleKeyPress m k := by simp [update, hd]
      rw [hu]
      exact handleKeyPress_selected m k hinv
  | filesLoaded files path =>
    exact ⟨fun i hi => absurd hi (Finset.not_mem_empty i), fun _ => rfl⟩
  | windowSize w h => exact selectedInv_congr rfl rfl hinv
  | status s => exact selectedInv_congr rfl rfl hinv
  | error e => exact selectedInv_congr rfl rfl hinv
  | loading l => exact selectedInv_congr rfl rfl hinv
  | download fs => exact selectedInv_congr rfl rfl hinv
  | downloadComplete d s e => exact selectedInv_congr rfl rfl hinv

/-- Claim C6: the cursor invariant (`cursor = 0` on an empty listing,
`0 ≤ cursor < len(entries)` otherwise) holds initially and is preserved
by every event, and every event that replaces the entry list — cached
navigation, going to parent, or a listing result — resets the cursor
to `0`; hence it holds in every reachable state under every sequence of
cursor-move and navigation operations. -/
theorem C6_cursor_invariant :
    (∀ now cfg, cursorInv (initialModel now cfg)) ∧
    (∀ now m msg, cursorInv m →
      cursorInv (update now m msg).1 ∧
        ((update now m msg).1.files ≠ m.files → (update now m msg).1.cursor = 0)) :=
  ⟨fun _ _ => ⟨fun _ => rfl, fun h => absurd h (Nat.lt_irrefl 0)⟩,
    fun now m msg h => update_cursor now m msg h⟩

/-- Witness for C6 at a concrete reachable state and a cursor move. -/
theorem C6_witness :
    cursorInv c1m1 ∧
      (cursorInv (update 0 c1m1 (Msg.key "j")).1 ∧
        ((update 0 c1m1 (Msg.key "j")).1.files ≠ c1m1.files →
          (update 0 c1m1 (Msg.key "j")).1.cursor = 0)) :=
  ⟨by decide, C6_cursor_invariant.2 0 c1m1 (Msg.key "j") (by decide)⟩

/-- Claim C7: every selected index is a valid index into the current
entry list, initially and after every event, and every event that
replaces the entry list — cached navigation, going to parent, or a
listing result — leaves the selection empty. -/
theorem C7_selection_invariant :
    (∀ now cfg, selectedInv (initialModel now cfg)) ∧
    (∀ now m msg, selectedInv m →
      selectedInv (update now m msg).1 ∧
        ((update now m msg).1.files ≠ m.files → (update now m msg).1.selected = ∅)) :=
  ⟨fun _ _ i hi => absurd hi (Finset.not_mem_empty i),
    fun now m msg h => update_selected now m msg h⟩

/-- Witness for C7 at a concrete state with a live selection receiving
a listing result. -/
theorem C7_witness :
    selectedInv c7m ∧
      (selectedInv (update 0 c7m (Msg.filesLoaded [aFile] "/a")).1 ∧
        ((update 0 c7m (Msg.filesLoaded [aFile] "/a")).1.files ≠ c7m.files →
          (update 0 c7m (Msg.filesLoaded [aFile] "/a")).1.selected = ∅)) :=
  ⟨by decide, C7_selection_invariant.2 0 c7m (Msg.filesLoaded [aFile] "/a") (by decide)⟩

/-- A successful `mkdirAll` adds the directory and keeps the files. -/
theorem mkdirAll_ok_eq {fs : FS} {d : String} {fs2 : FS}
    (h : mkdirAll fs d = Except.ok fs2) : fs2 = FS.mk fs.files (d :: fs.dirs) := by
  unfold mkdirAll at h
  split at h
  · exact Except.noConfusion h
  · cases h
    rfl

/-- Adding a directory preserves path existence. -/
theorem pathExists_consDir (fs : FS) (d p : String) (h : pathExists fs p = true) :
    pathExists (FS.mk fs.files (d :: fs.dirs)) p = true := by
  unfold pathExists fileAt at h ⊢
  dsimp only
  rcases Bool.or_eq_true_iff.mp h with h1 | h1
  · simp [h1]
  · have h2 : p ∈ fs.dirs := by simpa using h1
    simp [h2]

/-- Writing a file preserves path existence. -/
theorem pathExists_writeFile_mono (fs : FS) (q c p : String) (h : pathExists fs p = true) :
    pathExists (writeFile fs q c) p = true := by
  unfold pathExists fileAt writeFile
  unfold pathExists fileAt at h
  dsimp only
  rcases Bool.or_eq_true_iff.mp h with h1 | h1
  · cases hqp : (p == q) <;> simp [List.lookup, hqp, h1]
  · have h2 : p ∈ fs.dirs := by simpa using h1
    simp [h2]

/-- Writing a different path leaves a file content unchanged. -/
theorem fileAt_writeFile_ne (fs : FS) (q c p : String) (hne : (p == q) = false) :
    fileAt (writeFile fs q c) p = fileAt fs p := by
  unfold fileAt writeFile
  dsimp only
  simp [List.lookup, hne]

/-- One materialization step only grows the filesystem: existing paths
keep existing and keep their regular-file content. -/
theorem step_fs_mono (r : FetchOracle) (dir : String) (acc : BatchAcc) (it : FileItem)
    (p : String) (h : pathExists acc.fs p = true) :
    pathExists (materializeStep r dir acc it).fs p = true ∧
      fileAt (materializeStep r dir acc it).fs p = fileAt acc.fs p := by
  unfold materializeStep
  dsimp only
  repeat' split
  case isFalse.isTrue => exact ⟨h, rfl⟩
  case isTrue.h_1 x e heq => exact ⟨h, rfl⟩
  case isFalse.isFalse.h_1 x e heq => exact ⟨h, rfl⟩
  case isTrue.h_2 x fs1 heq =>
    rw [mkdirAll_ok_eq heq]
    exact ⟨pathExists_consDir acc.fs _ p h, rfl⟩
  case isFalse.isFalse.h_2.h_1 x1 fs1 heq1 x e heq =>
    rw [mkdirAll_ok_eq heq1]
    exact ⟨pathExists_consDir acc.fs _ p h, rfl⟩
  case isFalse.isFalse.h_2.h_2 x1 fs1 heq1 x c heq =>
    rw [mkdirAll_ok_eq heq1]
    have hne : pathExists acc.fs (localPath dir it) = false := by
      have hne2 := ‹¬ pathExists acc.fs (localPath dir it) = true›
      simpa using hne2
    have hlp : (p == (localPath dir it)) = false := by
      by_cases hpe : p = localPath dir it
      · rw [← hpe] at hne
        rw [hne] at h
        exact absurd h (by simp)
      · simp [hpe]
    refine ⟨?_, ?_⟩
    · exact pathExists_writeFile_mono _ _ _ p (pathExists_consDir acc.fs _ p h)
    · exact fileAt_writeFile_ne _ _ _ p hlp

/-- Over a whole batch the filesystem only grows: existing paths keep
existing and keep their content. -/
theorem materialize_fs_mono (r : FetchOracle) (dir : String) :
    ∀ (items : List FileItem) (acc : BatchAcc) (p : String),
      pathExists acc.fs p = true →
      pathExists (materialize r dir items acc).fs p = true ∧
        fileAt (materialize r dir items acc).fs p = fileAt acc.fs p := by
  intro items
  induction items with
  | nil => exact fun acc p h => ⟨h, rfl⟩
  | cons it rest ih =>
    intro acc p h
    obtain ⟨h1, h2⟩ := step_fs_mono r dir acc it p h
    obtain ⟨h3, h4⟩ := ih (materializeStep r dir acc it) p h1
    exact ⟨h3, h4.trans h2⟩

/-- The skipped list only grows during one step. -/
theorem step_skipped_mono (r : FetchOracle) (dir : String) (acc : BatchAcc) (it : FileItem)
    (x : String) (h : x ∈ acc.skipped) : x ∈ (materializeStep r dir acc it).skipped := by
  unfold materializeStep
  dsimp only
  repeat' split
  all_goals first
    | exact h
    | exact List.mem_append_left _ h

/-- The skipped list only grows over a whole batch. -/
theorem materialize_skipped_mono (r : FetchOracle) (dir : String) :
    ∀ (items : List FileItem) (acc : BatchAcc) (x : String),
      x ∈ acc.skipped → x ∈ (materialize r dir items acc).skipped := by
  intro items
  induction items with
  | nil => exact fun acc x h => h
  | cons it rest ih => exact fun acc x h => ih _ x (step_skipped_mono r dir acc it x h)

/-- A step never fetches a remote path whose local target already
exists. -/
theorem step_fetched (r : FetchOracle) (dir : String) (acc : BatchAcc) (it : FileItem)
    (q : String) (hq : pathExists acc.fs (dir ++ q) = true)
    (h : q ∈ (materializeStep r dir acc it).fetched) : q ∈ acc.fetched := by
  unfold materializeStep at h
  dsimp only at h
  repeat' split at h
  case isFalse.isFalse.h_2.h_1 | isFalse.isFalse.h_2.h_2 =>
    rcases List.mem_append.mp h with h2 | h2
    · exact h2
    · exfalso
      have hqp : q = it.path := by simpa using h2
      subst hqp
      simp_all [localPath]
  all_goals exact h

/-- A batch never fetches a remote path whose local target existed when
the batch reached it. -/
theorem materialize_fetched (r : FetchOracle) (dir : String) :
    ∀ (items : List FileItem) (acc : BatchAcc) (q : String),
      pathExists acc.fs (dir ++ q) = true →
      q ∈ (materialize r dir items acc).fetched → q ∈ acc.fetched := by
  intro items
  induction items with
  | nil => exact fun acc q _ h => h
  | cons it rest ih =>
    intro acc q hq h
    exact step_fetched r dir acc it q hq
      (ih _ q (step_fs_mono r dir acc it (dir ++ q) hq).1 h)

/-- Materialization unfolds one step at a time. -/
theorem materialize_cons (r : FetchOracle) (dir : String) (a : FileItem) (l : List FileItem)
    (acc : BatchAcc) :
    materialize r dir (a :: l) acc = materialize r dir l (materializeStep r dir acc a) := rfl

/-- Materialization splits over list append. -/
theorem materialize_append (r : FetchOracle) (dir : String) :
    ∀ (l1 l2 : List FileItem) (acc : BatchAcc),
      materialize r dir (l1 ++ l2) acc = materialize r dir l2 (materialize r dir l1 acc) := by
  intro l1
  induction l1 with
  | nil => intro l2 acc; rfl
  | cons a l ih =>
    intro l2 acc
    simp only [List.cons_append, materialize]
    exact ih l2 (materializeStep r dir acc a)

/-- The step on a non-folder whose local target exists records it as
skipped and changes nothing else. -/
theorem step_skip_eq (r : FetchOracle) (dir : String) (acc : BatchAcc) (it : FileItem)
    (hfile : it.isFolder = false) (hex : pathExists acc.fs (localPath dir it) = true) :
    materializeStep r dir acc it = { acc with skipped := acc.skipped ++ [it.name] } := by
  unfold materializeStep
  dsimp only
  rw [if_neg (by simp [hfile]), if_pos hex]

/-- Claim C8: in a download batch over an expanded item list, every
non-folder entry whose target local path exists before the batch runs
is recorded under `skipped`, its local content is untouched by the
batch, and its remote path is never passed to the download capability;
existence alone is the criterion (the step consults only `os.Stat`). -/
theorem C8_skip_on_exists (r : FetchOracle) (dir : String) (items : List FileItem)
    (it : FileItem) (fs0 : FS) (errs0 : List String)
    (hmem : it ∈ items) (hfile : it.isFolder = false)
    (hex : pathExists fs0 (localPath dir it) = true) :
    it.name ∈ (materialize r dir items (BatchAcc.mk fs0 [] [] errs0 [])).skipped ∧
    fileAt (materialize r dir items (BatchAcc.mk fs0 [] [] errs0 [])).fs (localPath dir it) =
      fileAt fs0 (localPath dir it) ∧
    it.path ∉ (materialize r dir items (BatchAcc.mk fs0 [] [] errs0 [])).fetched := by
  obtain ⟨pre, post, rfl⟩ := List.append_of_mem hmem
  rw [materialize_append r dir pre (it :: post) (BatchAcc.mk fs0 [] [] errs0 [])]
  have hex1 : pathExists (materialize r dir pre (BatchAcc.mk fs0 [] [] errs0 [])).fs
      (localPath dir it) = true :=
    (materialize_fs_mono r dir pre (BatchAcc.mk fs0 [] [] errs0 []) (localPath dir it) hex).1
  have hc1 : fileAt (materialize r dir pre (BatchAcc.mk fs0 [] [] errs0 [])).fs
      (localPath dir it) = fileAt fs0 (localPath dir it) :=
    (materialize_fs_mono r dir pre (BatchAcc.mk fs0 [] [] errs0 []) (localPath dir it) hex).2
  have hstep := step_skip_eq r dir (materialize r dir pre (BatchAcc.mk fs0 [] [] errs0 [])) it
    hfile hex1
  rw [materialize_cons, hstep]
  have hex2 : pathExists
      ({ materialize r dir pre (BatchAcc.mk fs0 [] [] errs0 []) with
        skipped := (materialize r dir pre (BatchAcc.mk fs0 [] [] errs0 [])).skipped ++ [it.name] } :
          BatchAcc).fs (localPath dir it) = true := hex1
  refine ⟨?_, ?_, ?_⟩
  · exact materialize_skipped_mono r dir post _ it.name
      (List.mem_append_right _ (List.mem_singleton.mpr rfl))
  · exact ((materialize_fs_mono r dir post _ (localPath dir it) hex2).2).trans hc1
  · intro hin
    have h3 : it.path ∈ ({ materialize r dir pre (BatchAcc.mk fs0 [] [] errs0 []) with
        skipped := (materialize r dir pre (BatchAcc.mk fs0 [] [] errs0 [])).skipped ++ [it.name] } :
          BatchAcc).fetched :=
      materialize_fetched r dir post _ it.path hex2 hin
    have h2 : it.path ∈ (BatchAcc.mk fs0 ([] : List String) [] errs0 []).fetched :=
      materialize_fetched r dir pre _ it.path hex h3
    simp at h2

/-- Witness for C8 at a concrete one-file batch whose target exists. -/
theorem C8_witness :
    (aFile ∈ [aFile] ∧ aFile.isFolder = false ∧
      pathExists c8fs (localPath "/dl" aFile) = true) ∧
    (aFile.name ∈ (materialize c8r "/dl" [aFile] (BatchAcc.mk c8fs [] [] [] [])).skipped ∧
      fileAt (materialize c8r "/dl" [aFile] (BatchAcc.mk c8fs [] [] [] [])).fs
        (localPath "/dl" aFile) = fileAt c8fs (localPath "/dl" aFile) ∧
      aFile.path ∉ (materialize c8r "/dl" [aFile] (BatchAcc.mk c8fs [] [] [] [])).fetched) :=
  ⟨⟨by decide, by decide, by decide⟩,
    C8_skip_on_exists c8r "/dl" [aFile] aFile c8fs [] (by decide) (by decide) (by decide)⟩

/-- `mkdirAll` on a path not occupied by a file succeeds and adds the
directory. -/
theorem mkdirAll_eq_ok {fs : FS} {d : String} (h : fileAt fs d = none) :
    mkdirAll fs d = Except.ok (FS.mk fs.files (d :: fs.dirs)) := by
  unfold mkdirAll
  simp [h]

/-- Adding a directory keeps a different path nonexistent. -/
theorem pathExists_consDir_ne (fs : FS) (d q : String) (hq : q ≠ d)
    (h : pathExists fs q = false) : pathExists (FS.mk fs.files (d :: fs.dirs)) q = false := by
  unfold pathExists fileAt at h ⊢
  dsimp only
  simp only [Bool.or_eq_false_iff] at h ⊢
  refine ⟨h.1, ?_⟩
  have h2 : q ∉ fs.dirs := by simpa using h.2
  simp [List.contains_cons, hq, h2]

/-- Writing a different path keeps a path nonexistent. -/
theorem pathExists_writeFile_ne (fs : FS) (w c q : String) (hq : q ≠ w)
    (h : pathExists fs q = false) : pathExists (writeFile fs w c) q = false := by
  unfold pathExists fileAt writeFile
  unfold pathExists fileAt at h
  dsimp only
  have hb : (q == w) = false := by simp [hq]
  simp only [Bool.or_eq_false_iff] at h ⊢
  refine ⟨?_, h.2⟩
  simp [List.lookup, hb]
  simpa using h.1

/-- Adding a directory does not change regular-file contents. -/
theorem fileAt_consDir (fs : FS) (d q : String) :
    fileAt (FS.mk fs.files (d :: fs.dirs)) q = fileAt fs q := rfl

/-- The materialization loop on a batch of plain files that are all
fresh for the local filesystem (nothing at their target paths, no file
blocking their parent directories, pairwise distinct targets, no
target doubling as a parent directory): every file whose fetch succeeds
is recorded under `downloaded` in batch order, every file whose fetch
fails contributes exactly one error in batch order, nothing is skipped,
and processing never aborts. -/
theorem materialize_fresh (r : FetchOracle) (dir : String) :
    ∀ (items : List FileItem) (acc : BatchAcc),
      (∀ b ∈ items, b.isFolder = false) →
      ((items.map (localPath dir)).Nodup) →
      (∀ a ∈ items, ∀ b ∈ items, localPath dir a ≠ dirname (localPath dir b)) →
      (∀ b ∈ items, FreshFor dir acc.fs b) →
      (materialize r dir items acc).downloaded
          = acc.downloaded ++ (items.filter (fun a => isOkE (r a.path))).map (fun a => a.name) ∧
      (materialize r dir items acc).errors
          = acc.errors ++ items.filterMap (fun a =>
              match r a.path with
              | Except.error e => some ("Failed to download " ++ a.name ++ ": " ++ e)
              | Except.ok _ => none) ∧
      (materialize r dir items acc).skipped = acc.skipped := by
  intro items
  induction items with
  | nil =>
    intro acc _ _ _ _
    exact ⟨by simp [materialize], by simp [materialize], rfl⟩
  | cons a rest ih =>
    intro acc h1 h2 h3 h4
    have hafold : a.isFolder = false := h1 a (List.mem_cons_self a rest)
    obtain ⟨hnex, hpari⟩ := h4 a (List.mem_cons_self a rest)
    have hmk : mkdirAll acc.fs (dirname (localPath dir a)) =
        Except.ok (FS.mk acc.fs.files (dirname (localPath dir a) :: acc.fs.dirs)) :=
      mkdirAll_eq_ok hpari
    rw [List.map_cons] at h2
    have hnotin := (List.nodup_cons.mp h2).1
    have hrest2 := (List.nodup_cons.mp h2).2
    have hrest1 : ∀ b ∈ rest, b.isFolder = false :=
      fun b hb => h1 b (List.mem_cons_of_mem a hb)
    have hrest3 : ∀ x ∈ rest, ∀ b ∈ rest, localPath dir x ≠ dirname (localPath dir b) :=
      fun x hx b hb => h3 x (List.mem_cons_of_mem a hx) b (List.mem_cons_of_mem a hb)
    have hbne : ∀ b ∈ rest, localPath dir b ≠ localPath dir a := by
      intro b hb he
      exact hnotin (he ▸ List.mem_map_of_mem (localPath dir) hb)
    have hbnd : ∀ b ∈ rest, localPath dir b ≠ dirname (localPath dir a) :=
      fun b hb => h3 b (List.mem_cons_of_mem a hb) a (List.mem_cons_self a rest)
    have hdnb : ∀ b ∈ rest, dirname (localPath dir b) ≠ localPath dir a :=
      fun b hb he => (h3 a (List.mem_cons_self a rest) b (List.mem_cons_of_mem a hb)) he.symm
    rcases hra : r a.path with e | c
    · -- fetch fails: parent directory still created, one error recorded
      have hstep : materializeStep r dir acc a = { acc with
          fs := FS.mk acc.fs.files (dirname (localPath dir a) :: acc.fs.dirs),
          fetched := acc.fetched ++ [a.path],
          errors := acc.errors ++ ["Failed to download " ++ a.name ++ ": " ++ e] } := by
        unfold materializeStep
        dsimp only
        rw [if_neg (by simp [hafold]), if_neg (by simp [hnex]), hmk, hra]
      have hrest4 : ∀ b ∈ rest, FreshFor dir (FS.mk acc.fs.files
          (dirname (localPath dir a) :: acc.fs.dirs)) b := by
        intro b hb
        obtain ⟨hb1, hb2⟩ := h4 b (List.mem_cons_of_mem a hb)
        exact ⟨pathExists_consDir_ne acc.fs _ _ (hbnd b hb) hb1, hb2⟩
      rw [materialize_cons, hstep]
      obtain ⟨ihd, ihe, ihs⟩ := ih { acc with
          fs := FS.mk acc.fs.files (dirname (localPath dir a) :: acc.fs.dirs),
          fetched := acc.fetched ++ [a.path],
          errors := acc.errors ++ ["Failed to download " ++ a.name ++ ": " ++ e] }
        hrest1 hrest2 hrest3 hrest4
      refine ⟨?_, ?_, ?_⟩
      · rw [ihd]
        simp [isOkE, hra]
      · rw [ihe]
        simp [hra]
      · exact ihs
    · -- fetch succeeds: file written, recorded under downloaded
      have hstep : materializeStep r dir acc a = { acc with
          fs := writeFile (FS.mk acc.fs.files (dirname (localPath dir a) :: acc.fs.dirs))
            (localPath dir a) c,
          fetched := acc.fetched ++ [a.path],
          downloaded := acc.downloaded ++ [a.name] } := by
        unfold materializeStep
        dsimp only
        rw [if_neg (by simp [hafold]), if_neg (by simp [hnex]), hmk, hra]
      have hrest4 : ∀ b ∈ rest, FreshFor dir (writeFile (FS.mk acc.fs.files
          (dirname (localPath dir a) :: acc.fs.dirs)) (localPath dir a) c) b := by
        intro b hb
        obtain ⟨hb1, hb2⟩ := h4 b (List.mem_cons_of_mem a hb)
        refine ⟨?_, ?_⟩
        · exact pathExists_writeFile_ne _ _ _ _ (hbne b hb)
            (pathExists_consDir_ne acc.fs _ _ (hbnd b hb) hb1)
        · rw [fileAt_writeFile_ne _ _ _ _ (by simp [hdnb b hb])]
          exact hb2
      rw [materialize_cons, hstep]
      obtain ⟨ihd, ihe, ihs⟩ := ih { acc with
          fs := writeFile (FS.mk acc.fs.files (dirname (localPath dir a) :: acc.fs.dirs))
            (localPath dir a) c,
          fetched := acc.fetched ++ [a.path],
          downloaded := acc.downloaded ++ [a.name] }
        hrest1 hrest2 hrest3 hrest4
      refine ⟨?_, ?_, ?_⟩
      · rw [ihd]
        simp [isOkE, hra]
      · rw [ihe]
        simp [hra]
      · exact ihs

/-- Claim C9: in a download batch of plain fresh files in which one
file's remote fetch fails and every other file's fetch succeeds, the
result reports exactly one error entry — the one for the failing
file — and records each succeeding file under `downloaded` in batch
order (so processing continued past the failure and never aborted),
with nothing skipped. -/
theorem C9_partial_failure (r : FetchOracle) (dir : String) (fs0 : FS)
    (pre post : List FileItem) (bad : FileItem) (e : String)
    (h1 : ∀ b ∈ pre ++ bad :: post, b.isFolder = false)
    (h2 : ((pre ++ bad :: post).map (localPath dir)).Nodup)
    (h3 : ∀ a ∈ pre ++ bad :: post, ∀ b ∈ pre ++ bad :: post,
      localPath dir a ≠ dirname (localPath dir b))
    (h4 : ∀ b ∈ pre ++ bad :: post, FreshFor dir fs0 b)
    (hok : ∀ a ∈ pre ++ post, isOkE (r a.path) = true)
    (hbad : r bad.path = Except.error e) :
    (materialize r dir (pre ++ bad :: post) (BatchAcc.mk fs0 [] [] [] [])).errors
        = ["Failed to download " ++ bad.name ++ ": " ++ e] ∧
    (materialize r dir (pre ++ bad :: post) (BatchAcc.mk fs0 [] [] [] [])).downloaded
        = pre.map (fun a => a.name) ++ post.map (fun a => a.name) ∧
    (materialize r dir (pre ++ bad :: post) (BatchAcc.mk fs0 [] [] [] [])).skipped = [] := by
  obtain ⟨ihd, ihe, ihs⟩ := materialize_fresh r dir (pre ++ bad :: post)
    (BatchAcc.mk fs0 [] [] [] []) h1 h2 h3 h4
  have hpre_f : pre.filter (fun a => isOkE (r a.path)) = pre :=
    List.filter_eq_self.mpr (fun a ha => hok a (List.mem_append_left post ha))
  have hpost_f : post.filter (fun a => isOkE (r a.path)) = post :=
    List.filter_eq_self.mpr (fun a ha => hok a (List.mem_append_right pre ha))
  have hpre_e : pre.filterMap (fun a =>
      match r a.path with
      | Except.error e2 => some ("Failed to download " ++ a.name ++ ": " ++ e2)
      | Except.ok _ => none) = [] := by
    rw [List.filterMap_eq_nil_iff]
    intro a ha
    have h5 := hok a (List.mem_append_left post ha)
    cases hra : r a.path with
    | ok c => simp [hra]
    | error e2 =>
      rw [hra] at h5
      exact absurd h5 (by simp [isOkE])
  have hpost_e : post.filterMap (fun a =>
      match r a.path with
      | Except.error e2 => some ("Failed to download " ++ a.name ++ ": " ++ e2)
      | Except.ok _ => none) = [] := by
    rw [List.filterMap_eq_nil_iff]
    intro a ha
    have h5 := hok a (List.mem_append_right pre ha)
    cases hra : r a.path with
    | ok c => simp [hra]
    | error e2 =>
      rw [hra] at h5
      exact absurd h5 (by simp [isOkE])
  refine ⟨?_, ?_, ?_⟩
  · rw [ihe]
    simp [List.filterMap_append, List.filterMap_cons, hbad, hpre_e, hpost_e]
  · rw [ihd]
    have hbf : isOkE (r bad.path) = false := by rw [hbad]; rfl
    simp [List.filter_append, List.filter_cons, hbf, hpre_f, hpost_f]
  · exact ihs

/-- Witness for C9 at a concrete three-file batch whose middle fetch
fails. -/
theorem C9_witness :
    c9r c9bad.path = Except.error "net" ∧
    ((materialize c9r "/dl" ([c9f1] ++ c9bad :: [c9f3]) (BatchAcc.mk emptyFS [] [] [] [])).errors
        = ["Failed to download " ++ c9bad.name ++ ": " ++ "net"] ∧
      (materialize c9r "/dl" ([c9f1] ++ c9bad :: [c9f3])
          (BatchAcc.mk emptyFS [] [] [] [])).downloaded
        = [c9f1].map (fun a => a.name) ++ [c9f3].map (fun a => a.name) ∧
      (materialize c9r "/dl" ([c9f1] ++ c9bad :: [c9f3])
          (BatchAcc.mk emptyFS [] [] [] [])).skipped = []) :=
  ⟨by decide,
    C9_partial_failure c9r "/dl" emptyFS [c9f1] [c9f3] c9bad "net"
      (by decide) (by decide) (by decide) (by decide) (by decide) (by decide)⟩

/-- The entry loop ignores deleted entries: running it on a listing
with the deleted entries removed gives the same result, for any pair of
pointwise-equal recursive calls. -/
theorem getAllFromEntries_filter (now : Nat)
    (rec1 rec2 : String → Except String (List FileItem))
    (hrec : ∀ p, rec1 p = rec2 p) :
    ∀ entries, getAllFromEntries rec1 now (entries.filter (fun e => !e.isDeleted))
      = getAllFromEntries rec2 now entries := by
  intro entries
  induction entries with
  | nil => rfl
  | cons e rest ih =>
    cases e with
    | file n p sz sm =>
      have hf : List.filter (fun e => !e.isDeleted) (RawEntry.file n p sz sm :: rest)
          = RawEntry.file n p sz sm :: List.filter (fun e => !e.isDeleted) rest := rfl
      rw [hf]
      simp only [getAllFromEntries]
      rw [ih]
    | folder n p =>
      have hf : List.filter (fun e => !e.isDeleted) (RawEntry.folder n p :: rest)
          = RawEntry.folder n p :: List.filter (fun e => !e.isDeleted) rest := rfl
      rw [hf]
      simp only [getAllFromEntries]
      rw [ih, hrec p]
    | deleted n p =>
      have hf : List.filter (fun e => !e.isDeleted) (RawEntry.deleted n p :: rest)
          = List.filter (fun e => !e.isDeleted) rest := rfl
      rw [hf]
      simp only [getAllFromEntries]
      exact ih
    | other =>
      have hf : List.filter (fun e => !e.isDeleted) (RawEntry.other :: rest)
          = RawEntry.other :: List.filter (fun e => !e.isDeleted) rest := rfl
      rw [hf]
      simp only [getAllFromEntries]
      exact ih

/-- Recursive expansion ignores deleted entries at every level: the
oracle with deleted entries filtered out of every listing produces the
same result. -/
theorem getAllFilesInFolder_filter (ls : ListOracle) (now : Nat) :
    ∀ fuel p, getAllFilesInFolder (filteredOracle ls) now fuel p
      = getAllFilesInFolder ls now fuel p := by
  intro fuel
  induction fuel with
  | zero => intro p; rfl
  | succ fuel ih =>
    intro p
    unfold getAllFilesInFolder filteredOracle
    cases hls : ls p with
    | error e => simp [hls, Except.map]
    | ok entries =>
      simp only [hls, Except.map]
      exact getAllFromEntries_filter now _ _ ih entries

/-- Claim C10: deleted entries are filtered out before any further
processing.  First conjunct: the listing pipeline of `loadFilesCmd`
produces the same items whether or not deleted entries are present, so
no displayed item derives from a deleted entry.  Second conjunct: the
recursive download expansion is invariant under removing deleted
entries from every remote listing.  Third conjunct: `Update` stores the
loaded items verbatim as the displayed entries and as the cache entry
for the fetched path, so deleted entries reach neither. -/
theorem C10_deleted_filtered :
    (∀ now raws, processRawEntries now raws
        = processRawEntries now (raws.filter (fun e => !e.isDeleted))) ∧
    (∀ ls now fuel p, getAllFilesInFolder (filteredOracle ls) now fuel p
        = getAllFilesInFolder ls now fuel p) ∧
    (∀ now m files path, (update now m (Msg.filesLoaded files path)).1.files = files ∧
      (update now m (Msg.filesLoaded files path)).1.folderCache.lookup path = some files) := by
  refine ⟨?_, ?_, ?_⟩
  · intro now raws
    induction raws with
    | nil => rfl
    | cons e rest ih =>
      cases e <;> simp [processRawEntries, List.filter_cons, RawEntry.isDeleted, ih]
  · exact fun ls now fuel p => getAllFilesInFolder_filter ls now fuel p
  · intro now m files path
    refine ⟨rfl, ?_⟩
    simp [update, List.lookup]

end Dbox
